import Mathlib

/-!
Verification of the terrain-query batching engine of
`src/Terrain/TerrainQuery.h` (class `TerrainAtCoordinateBatchManager`) and
of the poly-path wrapper (`TerrainPolyPathQuery`).

The repository ships only the header: the member functions `addQuery`,
`_sendNextBatch`, `_queryObjectDestroyed`, `_coordinateHeights`,
`_batchFailed` and the `TerrainPolyPathQuery` slots are declared there but
their bodies live in a translation unit that is not part of the sources.
Those bodies are therefore modelled from the specification (sections 3, 4,
6 and 7 of the design document), against the data members and signatures
the header fixes: `_requestQueue : QList<QueuedRequestInfo_t>`,
`_sentRequests : QList<SentRequestInfo_t>`, `_state`, `_batchTimeout = 500`
and `_batchTimer`.

Coordinates (`QGeoCoordinate`) are opaque to the engine and are modelled
as `Nat`; heights (`double`) are never computed with, only moved, and are
modelled as `Int`.  Consumers (`TerrainAtCoordinateQuery*`) are modelled
as `Nat` identifiers.
-/

namespace TerrainQuery

/-- Mirrors `QueuedRequestInfo_t`: a consumer handle together with the
coordinate list it submitted, waiting in the pending queue. -/
structure QueuedRequestInfo where
  terrainAtCoordinateQuery : Nat
  coordinates : List Nat
  deriving Repr, DecidableEq

/-- Mirrors `SentRequestInfo_t`: a ledger entry for a dispatched request,
keeping the consumer handle, its destroyed flag and the number `cCoord`
of coordinates it contributed. -/
structure SentRequestInfo where
  terrainAtCoordinateQuery : Nat
  queryObjectDestroyed : Bool
  cCoord : Nat
  deriving Repr, DecidableEq

/-- Engine states.  The header's `enum class State` has `Idle` and
`Downloading`; the specification refines the idle-with-timer-running
situation into its own `Scheduled` state (the header keeps `_state = Idle`
while `_batchTimer` counts down).  `Downloading` is the specification's
`AwaitingResponse`. -/
inductive State where
  | Idle
  | Scheduled
  | Downloading
  deriving Repr, DecidableEq

/-- The `_batchTimeout` data member: the fixed coalescing delay. -/
def batchTimeout : Nat := 500

/-- The engine's state: `_requestQueue`, `_sentRequests`, `_state`, and the
absolute time at which the armed `_batchTimer` fires (`none` when the
timer is not running). -/
structure Engine where
  requestQueue : List QueuedRequestInfo
  sentRequests : List SentRequestInfo
  state : State
  deadline : Option Nat
  deriving Repr, DecidableEq

/-- The freshly constructed batch manager: both containers empty,
`_state = State::Idle`, timer not running. -/
def initEngine : Engine :=
  { requestQueue := [], sentRequests := [], state := .Idle, deadline := none }

/-- Observable effects of one engine step: the outbound Transport call
(`_terrainQuery.requestCoordinateHeights(coords)`), and per-consumer
result delivery (`_signalTerrainData(true, slice)` respectively
`_signalTerrainData(false, empty)`). -/
inductive Output where
  | transportCall (points : List Nat)
  | onResult (consumer : Nat) (heights : List Int)
  | onFailure (consumer : Nat)
  deriving Repr, DecidableEq

/-- Sum of `cCoord` over a ledger: the number of heights the ledger
expects the response to carry (invariant I1). -/
def cCoordSum (rs : List SentRequestInfo) : Nat :=
  rs.foldr (fun s acc => s.cCoord + acc) 0

/-- `beginDispatch`, ledger half.  Modelled from the spec: converts each
pending `QueuedRequestInfo` into a `SentRequestInfo`, capturing
`cCoord = coordinates.length` and `queryObjectDestroyed = false`. -/
def mkLedger (qs : List QueuedRequestInfo) : List SentRequestInfo :=
  qs.map fun q =>
    { terrainAtCoordinateQuery := q.terrainAtCoordinateQuery
      queryObjectDestroyed := false
      cCoord := q.coordinates.length }

/-- `beginDispatch`, point half.  Modelled from the spec: concatenates all
pending coordinate lists, in queue order, into the outbound list. -/
def flattenPoints (qs : List QueuedRequestInfo) : List Nat :=
  (qs.map QueuedRequestInfo.coordinates).flatten

/-- `deliver(heights)`.  Modelled from the spec: walk the ledger in order,
consuming `cCoord` heights per entry; a non-destroyed entry receives its
slice as a success result, a destroyed entry's slice is silently
discarded (invariant I4). -/
def deliver : List SentRequestInfo → List Int → List Output
  | [], _ => []
  | s :: rest, hs =>
      (if s.queryObjectDestroyed then []
       else [Output.onResult s.terrainAtCoordinateQuery (hs.take s.cCoord)])
        ++ deliver rest (hs.drop s.cCoord)

/-- `deliverFailure()`.  Modelled from the spec: walk the ledger in order
and deliver a uniform failure (no partial heights) to each non-destroyed
entry; destroyed entries receive nothing. -/
def deliverFailure (rs : List SentRequestInfo) : List Output :=
  rs.filterMap fun s =>
    if s.queryObjectDestroyed then none
    else some (Output.onFailure s.terrainAtCoordinateQuery)

/-- `_sendNextBatch`.  Modelled from the spec: if a Transport call is
outstanding nothing can be sent; if the pending queue is empty there is
nothing to send and the engine rests at `Idle`; otherwise the entire
pending queue is flattened into exactly one Transport call and recorded
in the ledger, and the engine enters `Downloading` (`AwaitingResponse`). -/
def sendNextBatch (e : Engine) : Engine × List Output :=
  if e.state = .Downloading then (e, [])
  else if e.requestQueue.isEmpty then
    ({ e with state := .Idle, deadline := none }, [])
  else
    ({ requestQueue := []
       sentRequests := mkLedger e.requestQueue
       state := .Downloading
       deadline := none },
     [Output.transportCall (flattenPoints e.requestQueue)])

/-- `addQuery(query, coordinates)`.  Modelled from the spec: append a
pending request (even an empty one) to the queue tail; if the engine is
`Idle`, arm the one-shot coalescing timer (`_batchTimer`, delay
`_batchTimeout`) and enter `Scheduled`; in every other state the timer is
left untouched and the entry merely accumulates. -/
def addQuery (e : Engine) (now : Nat) (consumer : Nat) (coordinates : List Nat) :
    Engine × List Output :=
  let e' := { e with requestQueue :=
    e.requestQueue ++ [⟨consumer, coordinates⟩] }
  match e.state with
  | .Idle => ({ e' with state := .Scheduled, deadline := some (now + batchTimeout) }, [])
  | _ => (e', [])

/-- `_queryObjectDestroyed(object)`.  Modelled from the spec: drop the
consumer's pending entry outright if it is still queued, and mark its
ledger entry destroyed if it is in flight; the ledger slot is retained so
alignment is preserved. -/
def queryObjectDestroyed (e : Engine) (consumer : Nat) : Engine × List Output :=
  ({ e with
      requestQueue := e.requestQueue.filter
        fun q => q.terrainAtCoordinateQuery ≠ consumer
      sentRequests := e.sentRequests.map fun s =>
        if s.terrainAtCoordinateQuery = consumer then
          { s with queryObjectDestroyed := true }
        else s },
   [])

/-- `_batchFailed()`.  Modelled from the spec: deliver a uniform failure
to every non-destroyed ledger entry, clear the ledger, and proceed with
the follow-on dispatch rule (next batch immediately if requests are
pending, else `Idle`). -/
def batchFailed (e : Engine) : Engine × List Output :=
  let r := sendNextBatch { e with sentRequests := [], state := .Idle, deadline := none }
  (r.1, deliverFailure e.sentRequests ++ r.2)

/-- `_coordinateHeights(success, heights)`.  Modelled from the spec: on a
Transport completion, a failure — or a response whose length violates
invariant I1 — fails the whole dispatch via `_batchFailed`; a well-formed
success is demultiplexed by `deliver`.  Either way the ledger is cleared
and, if more requests accumulated meanwhile, the next Transport call is
issued immediately with no coalescing delay; otherwise the engine returns
to `Idle`. -/
def coordinateHeights (e : Engine) (success : Bool) (heights : List Int) :
    Engine × List Output :=
  if e.state ≠ .Downloading then (e, [])
  else if success = false ∨ heights.length ≠ cCoordSum e.sentRequests then
    batchFailed e
  else
    let r := sendNextBatch { e with sentRequests := [], state := .Idle, deadline := none }
    (r.1, deliver e.sentRequests heights ++ r.2)

/-- The engine's event alphabet: a consumer submission (with its wall-clock
time, for the timer model), the `_batchTimer` firing, a Transport
completion, and a consumer teardown. -/
inductive Event where
  | submit (now : Nat) (consumer : Nat) (coordinates : List Nat)
  | timerFire
  | transportResult (success : Bool) (heights : List Int)
  | destroy (consumer : Nat)
  deriving Repr, DecidableEq

/-- One step of the event-driven engine. -/
def step (e : Engine) : Event → Engine × List Output
  | .submit now c pts => addQuery e now c pts
  | .timerFire => sendNextBatch e
  | .transportResult success hs => coordinateHeights e success hs
  | .destroy c => queryObjectDestroyed e c

/-- Run a list of events, accumulating all outputs in order. -/
def run (e : Engine) : List Event → Engine × List Output
  | [] => (e, [])
  | ev :: evs =>
      let r2 := run (step e ev).1 evs
      (r2.1, (step e ev).2 ++ r2.2)

/-- A trace is valid when the environment only delivers a Transport
completion while a call is actually outstanding (the transport cannot
answer a question it was never asked). -/
def validB (e : Engine) : List Event → Bool
  | [] => true
  | ev :: evs =>
      (match ev with
       | .transportResult _ _ => e.state = State.Downloading
       | _ => true)
      && validB (step e ev).1 evs

/-- Number of Transport calls among a list of outputs. -/
def countCalls (outs : List Output) : Nat :=
  outs.countP fun o => match o with
    | .transportCall _ => true
    | _ => false

/-- Number of Transport completions among a list of events. -/
def countResults (evs : List Event) : Nat :=
  evs.countP fun ev => match ev with
    | .transportResult _ _ => true
    | _ => false

/-- 1 when a Transport call is outstanding in state `s`, else 0. -/
def outstanding (s : State) : Nat :=
  if s = .Downloading then 1 else 0

/-- Offset of ledger entry `i` into the response: the heights consumed by
the entries walked before it. -/
def offsetAt (rs : List SentRequestInfo) (i : Nat) : Nat :=
  cCoordSum (rs.take i)

/-- Mirrors `TerrainPathQuery::PathHeightInfo_t`: step sizes plus the
height samples of one two-endpoint path query.  The engine never computes
with the values, so `double` is modelled as `Int`. -/
structure PathHeightInfo where
  latStep : Int
  lonStep : Int
  heights : List Int
  deriving Repr, DecidableEq

/-- The data members of `TerrainPolyPathQuery`: `_curIndex`, `_rgCoords`
and the accumulated `_rgPathHeightInfo`. -/
structure PolyPathQuery where
  curIndex : Nat
  rgCoords : List Nat
  rgPathHeightInfo : List PathHeightInfo
  deriving Repr, DecidableEq

/-- Observable effects of the poly-path wrapper: a two-endpoint query
handed to `_pathQuery.requestData`, and the final `terrainData` signal. -/
inductive PolyOutput where
  | pathQuery (fromCoord toCoord : Nat)
  | terrainData (success : Bool) (rgPathHeightInfo : List PathHeightInfo)
  deriving Repr, DecidableEq

/-- `TerrainPolyPathQuery::requestData(polyPath)`.  Modelled from the
spec: reset the bookkeeping and issue the path query for the first
consecutive coordinate pair. -/
def polyRequestData (polyPath : List Nat) : PolyPathQuery × List PolyOutput :=
  ({ curIndex := 0, rgCoords := polyPath, rgPathHeightInfo := [] },
   [PolyOutput.pathQuery (polyPath.getD 0 0) (polyPath.getD 1 0)])

/-- `TerrainPolyPathQuery::_terrainDataReceived(success, info)`.  Modelled
from the spec: a failed segment fails the whole request; a successful
segment is appended in submission order and either the next consecutive
pair is queried, or — after the last segment — the aggregate is
emitted. -/
def terrainDataReceived (s : PolyPathQuery) (success : Bool) (info : PathHeightInfo) :
    PolyPathQuery × List PolyOutput :=
  if success = false then
    ({ s with rgPathHeightInfo := [] }, [PolyOutput.terrainData false []])
  else
    let s' := { s with rgPathHeightInfo := s.rgPathHeightInfo ++ [info],
                       curIndex := s.curIndex + 1 }
    if s.rgCoords.length - 1 ≤ s'.curIndex then
      (s', [PolyOutput.terrainData true s'.rgPathHeightInfo])
    else
      (s', [PolyOutput.pathQuery (s.rgCoords.getD s'.curIndex 0)
              (s.rgCoords.getD (s'.curIndex + 1) 0)])

/-- Drive the poly-path wrapper through `k` successful segment responses,
the response for the pair `(a, b)` being `f a b`. -/
def polyDrive (f : Nat → Nat → PathHeightInfo) :
    PolyPathQuery → Nat → PolyPathQuery × List PolyOutput
  | s, 0 => (s, [])
  | s, k + 1 =>
      let r1 := terrainDataReceived s true
        (f (s.rgCoords.getD s.curIndex 0) (s.rgCoords.getD (s.curIndex + 1) 0))
      let r2 := polyDrive f r1.1 k
      (r2.1, r1.2 ++ r2.2)

/-- The `k` consecutive coordinate pairs of `coords` starting at index
`i`: segment `j` joins coordinate `j` to coordinate `j + 1`. -/
def segsFrom (coords : List Nat) (i : Nat) : Nat → List (Nat × Nat)
  | 0 => []
  | k + 1 => (coords.getD i 0, coords.getD (i + 1) 0) :: segsFrom coords (i + 1) k

/-- Recognizer for Transport-completion events. -/
def resultEvent : Event → Bool
  | .transportResult _ _ => true
  | _ => false

/-! ## Basic lemmas about the ledger arithmetic -/

@[simp] lemma cCoordSum_nil : cCoordSum [] = 0 := rfl

@[simp] lemma cCoordSum_cons (s : SentRequestInfo) (rs : List SentRequestInfo) :
    cCoordSum (s :: rs) = s.cCoord + cCoordSum rs := rfl

lemma cCoordSum_eq_sum (rs : List SentRequestInfo) :
    cCoordSum rs = (rs.map SentRequestInfo.cCoord).sum := by
  induction rs with
  | nil => rfl
  | cons a l ih => simp [ih]

@[simp] lemma flattenPoints_nil : flattenPoints [] = [] := rfl

@[simp] lemma flattenPoints_cons (q : QueuedRequestInfo) (qs : List QueuedRequestInfo) :
    flattenPoints (q :: qs) = q.coordinates ++ flattenPoints qs := by
  simp [flattenPoints]

@[simp] lemma mkLedger_nil : mkLedger [] = [] := rfl

@[simp] lemma mkLedger_cons (q : QueuedRequestInfo) (qs : List QueuedRequestInfo) :
    mkLedger (q :: qs)
      = { terrainAtCoordinateQuery := q.terrainAtCoordinateQuery
          queryObjectDestroyed := false
          cCoord := q.coordinates.length } :: mkLedger qs := rfl

/-- Invariant I1, static half: the ledger built at dispatch expects
exactly as many heights as points were flattened into the call. -/
lemma cCoordSum_mkLedger (qs : List QueuedRequestInfo) :
    cCoordSum (mkLedger qs) = (flattenPoints qs).length := by
  induction qs with
  | nil => rfl
  | cons q l ih => simp [ih]

@[simp] lemma offsetAt_zero (rs : List SentRequestInfo) : offsetAt rs 0 = 0 := rfl

lemma offsetAt_cons_succ (a : SentRequestInfo) (l : List SentRequestInfo) (i : Nat) :
    offsetAt (a :: l) (i + 1) = a.cCoord + offsetAt l i := rfl

lemma offsetAt_add_le (rs : List SentRequestInfo) (i : Nat) (hi : i < rs.length) :
    offsetAt rs i + rs[i].cCoord ≤ cCoordSum rs := by
  induction rs generalizing i with
  | nil => simp at hi
  | cons a l ih =>
    match i with
    | 0 => simp [offsetAt]
    | n + 1 =>
      have hn : n < l.length := by simpa using hi
      have h := ih n hn
      simp only [List.getElem_cons_succ, offsetAt_cons_succ, cCoordSum_cons]
      omega

lemma map_getElem_eq {α β γ : Type} (f : α → β) (g : γ → β) (l : List α) (l' : List γ)
    (h : l.map f = l'.map g) (i : Nat) (hi : i < l.length) (hi' : i < l'.length) :
    f l[i] = g l'[i] := by
  have h2 := congrArg (fun t => t[i]?) h
  simp only [List.getElem?_map] at h2
  rw [List.getElem?_eq_getElem hi, List.getElem?_eq_getElem hi'] at h2
  simpa using h2

lemma offsetAt_congr (rs rs' : List SentRequestInfo)
    (h : rs.map SentRequestInfo.cCoord = rs'.map SentRequestInfo.cCoord) (i : Nat) :
    offsetAt rs i = offsetAt rs' i := by
  have h2 : (rs.take i).map SentRequestInfo.cCoord
      = (rs'.take i).map SentRequestInfo.cCoord := by
    rw [List.map_take, List.map_take, h]
  unfold offsetAt
  rw [cCoordSum_eq_sum, cCoordSum_eq_sum, h2]

lemma mkLedger_map_cCoord (qs : List QueuedRequestInfo) :
    (mkLedger qs).map SentRequestInfo.cCoord = qs.map fun q => q.coordinates.length := by
  simp [mkLedger, Function.comp]

lemma mkLedger_map_consumer (qs : List QueuedRequestInfo) :
    (mkLedger qs).map SentRequestInfo.terrainAtCoordinateQuery
      = qs.map QueuedRequestInfo.terrainAtCoordinateQuery := by
  simp [mkLedger, Function.comp]

/-! ## Lemmas about the demultiplexer -/

lemma deliver_mem (rs : List SentRequestInfo) (hs : List Int) (i : Nat) (hi : i < rs.length)
    (hd : rs[i].queryObjectDestroyed = false) :
    Output.onResult rs[i].terrainAtCoordinateQuery
      ((hs.drop (offsetAt rs i)).take rs[i].cCoord) ∈ deliver rs hs := by
  induction rs generalizing hs i with
  | nil => simp at hi
  | cons a l ih =>
    match i with
    | 0 =>
      simp only [List.getElem_cons_zero] at hd ⊢
      simp [deliver, hd]
    | n + 1 =>
      have hn : n < l.length := by simpa using hi
      simp only [List.getElem_cons_succ] at hd ⊢
      rw [offsetAt_cons_succ]
      have hdrop : hs.drop (a.cCoord + offsetAt l n)
          = (hs.drop a.cCoord).drop (offsetAt l n) := by
        rw [List.drop_drop]
      rw [hdrop]
      simp only [deliver]
      exact List.mem_append_right _ (ih (hs.drop a.cCoord) n hn hd)

lemma mem_deliver_elim (rs : List SentRequestInfo) (hs : List Int) (out : Output)
    (h : out ∈ deliver rs hs) :
    ∃ s ∈ rs, ∃ sl, s.queryObjectDestroyed = false
      ∧ out = Output.onResult s.terrainAtCoordinateQuery sl ∧ sl.length ≤ hs.length := by
  induction rs generalizing hs with
  | nil => simp [deliver] at h
  | cons a l ih =>
    simp only [deliver, List.mem_append] at h
    rcases h with h | h
    · by_cases hda : a.queryObjectDestroyed
      · simp [hda] at h
      · simp only [hda, if_neg, Bool.false_eq_true, ite_false, List.mem_singleton] at h
        refine ⟨a, List.mem_cons_self a l, hs.take a.cCoord, by simpa using hda, by simpa using h, ?_⟩
        simp
    · obtain ⟨s, hsmem, sl, h1, h2, h3⟩ := ih (hs.drop a.cCoord) h
      exact ⟨s, List.mem_cons_of_mem a hsmem, sl, h1, h2,
        le_trans h3 (by simp)⟩

lemma mem_deliverFailure_iff (rs : List SentRequestInfo) (out : Output) :
    out ∈ deliverFailure rs
      ↔ ∃ s ∈ rs, s.queryObjectDestroyed = false
          ∧ out = Output.onFailure s.terrainAtCoordinateQuery := by
  simp only [deliverFailure, List.mem_filterMap]
  constructor
  · rintro ⟨s, hmem, hsome⟩
    by_cases hd : s.queryObjectDestroyed
    · simp [hd] at hsome
    · simp only [hd, if_neg, Bool.false_eq_true, ite_false, Option.some.injEq] at hsome
      exact ⟨s, hmem, by simpa using hd, hsome.symm⟩
  · rintro ⟨s, hmem, hd, rfl⟩
    exact ⟨s, hmem, by simp [hd]⟩

lemma deliver_append (rs1 rs2 : List SentRequestInfo) (hs : List Int) :
    deliver (rs1 ++ rs2) hs
      = deliver rs1 hs ++ deliver rs2 (hs.drop (cCoordSum rs1)) := by
  induction rs1 generalizing hs with
  | nil => simp [deliver]
  | cons a l ih =>
    simp only [List.cons_append, deliver, cCoordSum_cons, List.append_assoc,
      List.append_eq]
    rw [ih, List.drop_drop]

/-- The i-th consumer's segment of the flattened outbound point list is
exactly its own coordinate list (invariant I3, static half). -/
lemma flatten_segment (qs : List QueuedRequestInfo) (i : Nat) (hi : i < qs.length) :
    ((flattenPoints qs).drop (offsetAt (mkLedger qs) i)).take qs[i].coordinates.length
      = qs[i].coordinates := by
  induction qs generalizing i with
  | nil => simp at hi
  | cons q l ih =>
    match i with
    | 0 =>
      simp only [List.getElem_cons_zero, mkLedger_cons, offsetAt_zero, List.drop_zero,
        flattenPoints_cons]
      exact List.take_left _ _
    | n + 1 =>
      have hn : n < l.length := by simpa using hi
      simp only [List.getElem_cons_succ, mkLedger_cons, offsetAt_cons_succ, flattenPoints_cons]
      have h4 : (q.coordinates ++ flattenPoints l).drop
            (q.coordinates.length + offsetAt (mkLedger l) n)
          = (flattenPoints l).drop (offsetAt (mkLedger l) n) := by
        rw [← List.drop_drop, List.drop_left]
      rw [h4]
      exact ih n hn

/-! ## Lemmas about the engine operations -/

lemma addQuery_requestQueue (e : Engine) (now c : Nat) (pts : List Nat) :
    (addQuery e now c pts).1.requestQueue = e.requestQueue ++ [⟨c, pts⟩] := by
  cases h : e.state <;> simp [addQuery, h]

lemma addQuery_outputs (e : Engine) (now c : Nat) (pts : List Nat) :
    (addQuery e now c pts).2 = [] := by
  cases h : e.state <;> simp [addQuery, h]

lemma addQuery_sentRequests (e : Engine) (now c : Nat) (pts : List Nat) :
    (addQuery e now c pts).1.sentRequests = e.sentRequests := by
  cases h : e.state <;> simp [addQuery, h]

lemma addQuery_state (e : Engine) (now c : Nat) (pts : List Nat) :
    (addQuery e now c pts).1.state = if e.state = .Idle then .Scheduled else e.state := by
  cases h : e.state <;> simp [addQuery, h]

lemma addQuery_deadline (e : Engine) (now c : Nat) (pts : List Nat) :
    (addQuery e now c pts).1.deadline
      = if e.state = .Idle then some (now + batchTimeout) else e.deadline := by
  cases h : e.state <;> simp [addQuery, h]

lemma sendNextBatch_outputs (e : Engine) :
    ∀ out ∈ (sendNextBatch e).2, out = Output.transportCall (flattenPoints e.requestQueue) := by
  intro out hmem
  unfold sendNextBatch at hmem
  by_cases h1 : e.state = .Downloading
  · simp [h1] at hmem
  · by_cases h2 : e.requestQueue.isEmpty
    · simp [h1, h2] at hmem
    · simp [h1, h2] at hmem
      simp [hmem]

lemma sendNextBatch_queue_sub (e : Engine) :
    ∀ q ∈ (sendNextBatch e).1.requestQueue, q ∈ e.requestQueue := by
  intro q hmem
  unfold sendNextBatch at hmem
  by_cases h1 : e.state = .Downloading
  · simpa [h1] using hmem
  · by_cases h2 : e.requestQueue.isEmpty
    · simpa [h1, h2] using hmem
    · simp [h1, h2] at hmem

/-- Both completion branches of `_coordinateHeights` share one shape: a
fan-out phase with no Transport call, followed by `_sendNextBatch` from
the cleared-ledger `Idle` state. -/
lemma coordinateHeights_decomp (e : Engine) (success : Bool) (hs : List Int)
    (hstate : e.state = .Downloading) :
    (coordinateHeights e success hs).1
        = (sendNextBatch { e with sentRequests := [], state := .Idle, deadline := none }).1
      ∧ ∃ fan : List Output,
          (coordinateHeights e success hs).2
            = fan ++ (sendNextBatch
                { e with sentRequests := [], state := .Idle, deadline := none }).2
          ∧ (∀ pts, Output.transportCall pts ∉ fan)
          ∧ (∀ c : Nat, Output.onFailure c ∈ fan →
              ∃ s ∈ e.sentRequests, s.queryObjectDestroyed = false
                ∧ s.terrainAtCoordinateQuery = c) := by
  unfold coordinateHeights
  rw [if_neg (by simp [hstate])]
  by_cases hb : success = false ∨ hs.length ≠ cCoordSum e.sentRequests
  · rw [if_pos hb]
    unfold batchFailed
    refine ⟨rfl, deliverFailure e.sentRequests, rfl, ?_, ?_⟩
    · intro pts hmem
      rw [mem_deliverFailure_iff] at hmem
      obtain ⟨s, _, _, h⟩ := hmem
      cases h
    · intro c hmem
      rw [mem_deliverFailure_iff] at hmem
      obtain ⟨s, hsmem, hd, h⟩ := hmem
      cases h
      exact ⟨s, hsmem, hd, rfl⟩
  · rw [if_neg hb]
    refine ⟨rfl, deliver e.sentRequests hs, rfl, ?_, ?_⟩
    · intro pts hmem
      obtain ⟨s, _, sl, _, h, _⟩ := mem_deliver_elim _ _ _ hmem
      cases h
    · intro c hmem
      obtain ⟨s, _, sl, _, h, _⟩ := mem_deliver_elim _ _ _ hmem
      cases h

lemma countCalls_append (a b : List Output) :
    countCalls (a ++ b) = countCalls a + countCalls b :=
  List.countP_append _ _ _

lemma countCalls_eq_zero (outs : List Output)
    (h : ∀ pts, Output.transportCall pts ∉ outs) : countCalls outs = 0 := by
  rw [countCalls, List.countP_eq_zero]
  intro o ho
  cases o with
  | transportCall pts => exact absurd ho (h pts)
  | onResult c sl => simp
  | onFailure c => simp

lemma countResults_cons (ev : Event) (evs : List Event) :
    countResults (ev :: evs) = countResults evs + (if resultEvent ev then 1 else 0) := by
  cases ev <;> simp [countResults, resultEvent, List.countP_cons]

lemma sendNextBatch_countCalls (e : Engine) :
    countCalls (sendNextBatch e).2 = outstanding (sendNextBatch e).1.state - outstanding e.state := by
  unfold sendNextBatch
  by_cases h1 : e.state = .Downloading
  · simp [h1, countCalls, outstanding]
  · by_cases h2 : e.requestQueue.isEmpty
    · simp [h1, h2, countCalls, outstanding]
    · simp [h1, h2, countCalls, outstanding, List.countP_cons]

/-- Bookkeeping of one step: a non-completion event can create a call only
by leaving the idle/scheduled world, a completion event retires one call
before any new one is issued. -/
lemma step_counting (e : Engine) (ev : Event)
    (hok : resultEvent ev = true → e.state = .Downloading) :
    countCalls (step e ev).2 + outstanding e.state
      = (if resultEvent ev then 1 else 0) + outstanding (step e ev).1.state := by
  cases ev with
  | submit now c pts =>
    rw [show step e (.submit now c pts) = addQuery e now c pts from rfl]
    rw [addQuery_outputs, addQuery_state]
    by_cases h : e.state = .Idle <;> simp [h, countCalls, outstanding, resultEvent]
  | timerFire =>
    rw [show step e .timerFire = sendNextBatch e from rfl]
    unfold sendNextBatch
    by_cases h1 : e.state = .Downloading
    · simp [h1, countCalls, outstanding, resultEvent]
    · by_cases h2 : e.requestQueue.isEmpty
      · simp [h1, h2, countCalls, outstanding, resultEvent]
      · simp [h1, h2, countCalls, outstanding, resultEvent, List.countP_cons]
  | transportResult success hs =>
    have hst := hok rfl
    obtain ⟨he, fan, houts, hnocall, _⟩ := coordinateHeights_decomp e success hs hst
    rw [show step e (.transportResult success hs) = coordinateHeights e success hs from rfl]
    rw [houts, countCalls_append, countCalls_eq_zero fan hnocall, he,
      sendNextBatch_countCalls]
    have h0 : outstanding ({ e with sentRequests := [], state := .Idle, deadline := none } : Engine).state = 0 := rfl
    have h1 : outstanding e.state = 1 := by rw [hst]; rfl
    rw [h0, h1]
    simp only [resultEvent, if_true]
    omega
  | destroy c =>
    simp [step, queryObjectDestroyed, countCalls, outstanding, resultEvent]

/-- Trace-level call accounting: along any valid trace the number of
Transport calls issued equals the number of completions received plus the
single possibly-still-outstanding call. -/
lemma run_counting : ∀ (evs : List Event) (e : Engine), validB e evs = true →
    countCalls (run e evs).2 + outstanding e.state
      = countResults evs + outstanding (run e evs).1.state := by
  intro evs
  induction evs with
  | nil => intro e _; simp [run, countCalls, countResults]
  | cons ev evs ih =>
    intro e hv
    simp only [validB, Bool.and_eq_true] at hv
    obtain ⟨h1, h2⟩ := hv
    have hok : resultEvent ev = true → e.state = .Downloading := by
      intro hr
      cases ev with
      | transportResult success hs => simpa using h1
      | submit now c pts => simp [resultEvent] at hr
      | timerFire => simp [resultEvent] at hr
      | destroy c => simp [resultEvent] at hr
    have hstep := step_counting e ev hok
    have hrest := ih (step e ev).1 h2
    simp only [run, countCalls_append, countResults_cons]
    omega

lemma sendNextBatch_dispatch (e : Engine) (h1 : e.state ≠ .Downloading)
    (h2 : e.requestQueue ≠ []) :
    sendNextBatch e
      = ({ requestQueue := [], sentRequests := mkLedger e.requestQueue,
           state := .Downloading, deadline := none },
         [Output.transportCall (flattenPoints e.requestQueue)]) := by
  unfold sendNextBatch
  rw [if_neg h1, if_neg (by simp [List.isEmpty_iff, h2])]

lemma sendNextBatch_idle (e : Engine) (h1 : e.state ≠ .Downloading)
    (h2 : e.requestQueue = []) :
    sendNextBatch e = ({ e with state := .Idle, deadline := none }, []) := by
  unfold sendNextBatch
  rw [if_neg h1, if_pos (by simp [List.isEmpty_iff, h2])]

lemma coordinateHeights_stray (e : Engine) (success : Bool) (hs : List Int)
    (hstate : e.state ≠ .Downloading) :
    coordinateHeights e success hs = (e, []) := by
  unfold coordinateHeights
  rw [if_pos hstate]

/-- A single step never re-creates a consumer's pending entry once it is
gone, and every Transport call it emits flattens a queue free of that
consumer. -/
lemma step_queue_avoid (c : Nat) (e : Engine) (ev : Event)
    (hq : ∀ q ∈ e.requestQueue, q.terrainAtCoordinateQuery ≠ c)
    (hev : ∀ now pts, ev ≠ Event.submit now c pts) :
    (∀ q ∈ (step e ev).1.requestQueue, q.terrainAtCoordinateQuery ≠ c)
    ∧ (∀ pts, Output.transportCall pts ∈ (step e ev).2 →
        ∃ Q : List QueuedRequestInfo, pts = flattenPoints Q
          ∧ ∀ q ∈ Q, q.terrainAtCoordinateQuery ≠ c) := by
  cases ev with
  | submit now c' pts' =>
    have hc : c' ≠ c := fun h => hev now pts' (by rw [h])
    constructor
    · intro q hqmem
      rw [show (step e (.submit now c' pts')).1 = (addQuery e now c' pts').1 from rfl,
        addQuery_requestQueue] at hqmem
      rcases List.mem_append.mp hqmem with h | h
      · exact hq q h
      · simp only [List.mem_singleton] at h
        subst h
        simpa using hc
    · intro pts hmem
      rw [show (step e (.submit now c' pts')).2 = (addQuery e now c' pts').2 from rfl,
        addQuery_outputs] at hmem
      simp at hmem
  | timerFire =>
    refine ⟨fun q hqmem => hq q (sendNextBatch_queue_sub e q hqmem), ?_⟩
    intro pts hmem
    have h := sendNextBatch_outputs e _ hmem
    simp only [Output.transportCall.injEq] at h
    exact ⟨e.requestQueue, h, hq⟩
  | transportResult success hs =>
    by_cases hst : e.state = .Downloading
    · obtain ⟨he, fan, houts, hnocall, _⟩ := coordinateHeights_decomp e success hs hst
      constructor
      · intro q hqmem
        rw [show (step e (.transportResult success hs)).1
            = (coordinateHeights e success hs).1 from rfl, he] at hqmem
        have h3 := sendNextBatch_queue_sub _ q hqmem
        exact hq q h3
      · intro pts hmem
        rw [show (step e (.transportResult success hs)).2
            = (coordinateHeights e success hs).2 from rfl, houts] at hmem
        rcases List.mem_append.mp hmem with h | h
        · exact absurd h (hnocall pts)
        · have h2 := sendNextBatch_outputs _ _ h
          simp only [Output.transportCall.injEq] at h2
          exact ⟨e.requestQueue, h2, hq⟩
    · rw [show step e (.transportResult success hs) = coordinateHeights e success hs from rfl,
        coordinateHeights_stray e success hs hst]
      exact ⟨hq, by intro pts hmem; simp at hmem⟩
  | destroy c'' =>
    constructor
    · intro q hqmem
      simp only [step, queryObjectDestroyed] at hqmem
      exact hq q (List.mem_of_mem_filter hqmem)
    · intro pts hmem
      simp [step, queryObjectDestroyed] at hmem

/-- Trace closure of `step_queue_avoid`. -/
lemma run_queue_avoid (c : Nat) : ∀ (evs : List Event) (e : Engine),
    (∀ q ∈ e.requestQueue, q.terrainAtCoordinateQuery ≠ c) →
    (∀ now pts, Event.submit now c pts ∉ evs) →
    (∀ q ∈ (run e evs).1.requestQueue, q.terrainAtCoordinateQuery ≠ c)
    ∧ (∀ pts, Output.transportCall pts ∈ (run e evs).2 →
        ∃ Q : List QueuedRequestInfo, pts = flattenPoints Q
          ∧ ∀ q ∈ Q, q.terrainAtCoordinateQuery ≠ c) := by
  intro evs
  induction evs with
  | nil =>
    intro e hq _
    refine ⟨by simpa [run] using hq, ?_⟩
    intro pts hmem
    simp [run] at hmem
  | cons ev evs ih =>
    intro e hq hno
    have hev : ∀ now pts, ev ≠ Event.submit now c pts := by
      intro now pts h
      exact hno now pts (by rw [h]; exact List.mem_cons_self _ _)
    obtain ⟨hq1, hcall1⟩ := step_queue_avoid c e ev hq hev
    have hno' : ∀ now pts, Event.submit now c pts ∉ evs := by
      intro now pts h
      exact hno now pts (List.mem_cons_of_mem _ h)
    obtain ⟨hq2, hcall2⟩ := ih (step e ev).1 hq1 hno'
    refine ⟨by simpa [run] using hq2, ?_⟩
    intro pts hmem
    simp only [run, List.mem_append] at hmem
    rcases hmem with h | h
    · exact hcall1 pts h
    · exact hcall2 pts h

/-- Driving the poly-path wrapper through its remaining segments: each
response triggers the query for the next consecutive pair, and the last
response triggers the aggregate signal, in segment order. -/
lemma polyDrive_spec (f : Nat → Nat → PathHeightInfo) (coords : List Nat) :
    ∀ (m i : Nat) (acc : List PathHeightInfo), i + m + 1 = coords.length - 1 →
      (polyDrive f ⟨i, coords, acc⟩ (m + 1)).2
        = (segsFrom coords (i + 1) m).map (fun p => PolyOutput.pathQuery p.1 p.2)
          ++ [PolyOutput.terrainData true
                (acc ++ (segsFrom coords i (m + 1)).map fun p => f p.1 p.2)] := by
  intro m
  induction m with
  | zero =>
    intro i acc h
    have hc : coords.length - 1 ≤ i + 1 := by omega
    simp [polyDrive, terrainDataReceived, segsFrom, hc]
  | succ n ih =>
    intro i acc h
    have hc : ¬ (coords.length - 1 ≤ i + 1) := by omega
    have hstep : terrainDataReceived ⟨i, coords, acc⟩ true
          (f (coords.getD i 0) (coords.getD (i + 1) 0))
        = (⟨i + 1, coords, acc ++ [f (coords.getD i 0) (coords.getD (i + 1) 0)]⟩,
           [PolyOutput.pathQuery (coords.getD (i + 1) 0) (coords.getD (i + 1 + 1) 0)]) := by
      simp [terrainDataReceived, hc]
    rw [show (polyDrive f ⟨i, coords, acc⟩ (n + 1 + 1)).2
        = (terrainDataReceived ⟨i, coords, acc⟩ true
            (f (coords.getD i 0) (coords.getD (i + 1) 0))).2
          ++ (polyDrive f (terrainDataReceived ⟨i, coords, acc⟩ true
                (f (coords.getD i 0) (coords.getD (i + 1) 0))).1 (n + 1)).2 from rfl]
    rw [hstep]
    dsimp only
    rw [ih (i + 1) (acc ++ [f (coords.getD i 0) (coords.getD (i + 1) 0)]) (by omega)]
    simp [segsFrom]

/-! ## The claims -/

/-- C1: after a dispatch whose Transport call succeeds, each surviving
consumer is delivered a height list of the same length as the point list
it submitted, and positionally aligned with it: the demultiplexer walks
the ledger in order consuming `cCoord` heights per entry, and the window
`[offsetAt rs i, offsetAt rs i + cCoord)` of the flattened outbound list
is exactly the consumer's own point list. -/
theorem alignment_after_success
    (qs : List QueuedRequestInfo) (rs : List SentRequestInfo) (hs : List Int)
    (hc : rs.map SentRequestInfo.cCoord = qs.map fun q => q.coordinates.length)
    (hn : rs.map SentRequestInfo.terrainAtCoordinateQuery
        = qs.map QueuedRequestInfo.terrainAtCoordinateQuery)
    (hlen : hs.length = cCoordSum rs)
    (i : Nat) (hi : i < rs.length) (hiq : i < qs.length)
    (hd : rs[i].queryObjectDestroyed = false) :
    Output.onResult qs[i].terrainAtCoordinateQuery
        ((hs.drop (offsetAt rs i)).take qs[i].coordinates.length) ∈ deliver rs hs
    ∧ ((hs.drop (offsetAt rs i)).take qs[i].coordinates.length).length
        = qs[i].coordinates.length
    ∧ ((flattenPoints qs).drop (offsetAt rs i)).take qs[i].coordinates.length
        = qs[i].coordinates
    ∧ (∀ e : Engine, e.state = .Downloading → e.sentRequests = rs →
        (coordinateHeights e true hs).2
          = deliver rs hs
            ++ (sendNextBatch
                { e with sentRequests := [], state := .Idle, deadline := none }).2) := by
  have hcc : rs[i].cCoord = qs[i].coordinates.length :=
    map_getElem_eq _ _ _ _ hc i hi hiq
  have hcons : rs[i].terrainAtCoordinateQuery = qs[i].terrainAtCoordinateQuery :=
    map_getElem_eq _ _ _ _ hn i hi hiq
  have hoff : offsetAt rs i = offsetAt (mkLedger qs) i :=
    offsetAt_congr _ _ (by rw [hc, mkLedger_map_cCoord]) i
  refine ⟨?_, ?_, ?_, ?_⟩
  · have h := deliver_mem rs hs i hi hd
    rw [hcc, hcons] at h
    exact h
  · have hb := offsetAt_add_le rs i hi
    rw [hcc] at hb
    simp only [List.length_take, List.length_drop]
    omega
  · rw [hoff]
    exact flatten_segment qs i hiq
  · intro e hstate hsent
    unfold coordinateHeights
    rw [if_neg (by simp [hstate]), if_neg (by simp [hsent, hlen]), hsent]

/-- C2: at most one Transport call is outstanding at any reachable state:
along every valid trace the calls issued balance the completions received
plus at most one in-flight call, and the only emitter of calls,
`_sendNextBatch`, refuses to send while the state is `Downloading`. -/
theorem single_flight (e0 : Engine) (evs : List Event)
    (hv : validB e0 evs = true) (h0 : e0.state = .Idle) :
    countCalls (run e0 evs).2
        = countResults evs + outstanding (run e0 evs).1.state
    ∧ outstanding (run e0 evs).1.state ≤ 1
    ∧ (∀ e : Engine, e.state = .Downloading → (sendNextBatch e).2 = []) := by
  have h := run_counting evs e0 hv
  rw [h0] at h
  refine ⟨by simpa [outstanding] using h, ?_, ?_⟩
  · unfold outstanding
    split <;> omega
  · intro e he
    unfold sendNextBatch
    rw [if_pos he]

/-- C3: a consumer whose ledger entries are all marked destroyed receives
neither a success nor a failure delivery; its `cCoord` still participates
in every later entry's offset, so each surviving entry still receives the
exact slice at its own ledger offset. -/
theorem destroyed_consumer_silent
    (rs : List SentRequestInfo) (hs : List Int) (c : Nat)
    (hdest : ∀ s ∈ rs, s.terrainAtCoordinateQuery = c → s.queryObjectDestroyed = true) :
    (∀ sl : List Int, Output.onResult c sl ∉ deliver rs hs)
    ∧ Output.onFailure c ∉ deliverFailure rs
    ∧ (∀ i : Nat, (hi : i < rs.length) → rs[i].queryObjectDestroyed = false →
        Output.onResult rs[i].terrainAtCoordinateQuery
          ((hs.drop (offsetAt rs i)).take rs[i].cCoord) ∈ deliver rs hs) := by
  refine ⟨?_, ?_, ?_⟩
  · intro sl hmem
    obtain ⟨s, hsmem, sl', hnd, heq, _⟩ := mem_deliver_elim rs hs _ hmem
    have : s.terrainAtCoordinateQuery = c := by
      cases heq
      rfl
    rw [hdest s hsmem this] at hnd
    cases hnd
  · intro hmem
    rw [mem_deliverFailure_iff] at hmem
    obtain ⟨s, hsmem, hnd, heq⟩ := hmem
    have : s.terrainAtCoordinateQuery = c := by
      cases heq
      rfl
    rw [hdest s hsmem this] at hnd
    cases hnd
  · intro i hi hd
    exact deliver_mem rs hs i hi hd

/-- C4: destroying a consumer whose request is still pending removes its
queue entry outright; as long as it never resubmits, every later
Transport call flattens a queue free of its entries; and if it was the
only pending entry, the timer firing issues no Transport call at all. -/
theorem destroyed_pending_dropped (e : Engine) (c : Nat) :
    (∀ q ∈ (queryObjectDestroyed e c).1.requestQueue, q.terrainAtCoordinateQuery ≠ c)
    ∧ (∀ evs : List Event, (∀ now pts, Event.submit now c pts ∉ evs) →
        ∀ pts, Output.transportCall pts ∈ (run (queryObjectDestroyed e c).1 evs).2 →
          ∃ Q : List QueuedRequestInfo, pts = flattenPoints Q
            ∧ ∀ q ∈ Q, q.terrainAtCoordinateQuery ≠ c)
    ∧ (∀ pts0 : List Nat, e.state = .Scheduled → e.requestQueue = [⟨c, pts0⟩] →
        (run (queryObjectDestroyed e c).1 [Event.timerFire]).2 = []) := by
  have hq : ∀ q ∈ (queryObjectDestroyed e c).1.requestQueue,
      q.terrainAtCoordinateQuery ≠ c := by
    intro q hmem
    simp only [queryObjectDestroyed] at hmem
    have := List.of_mem_filter hmem
    simpa using this
  refine ⟨hq, ?_, ?_⟩
  · intro evs hno pts hmem
    exact (run_queue_avoid c evs _ hq hno).2 pts hmem
  · intro pts0 hsched hqueue
    have hqe : (queryObjectDestroyed e c).1.requestQueue = [] := by
      simp [queryObjectDestroyed, hqueue]
    have hst : (queryObjectDestroyed e c).1.state ≠ .Downloading := by
      simp [queryObjectDestroyed, hsched]
    simp [run, step, sendNextBatch_idle _ hst hqe]

/-- C5: a failed Transport call delivers a uniform failure (carrying no
heights) to exactly the non-destroyed entries of the current ledger, in
ledger order, delivers nothing to destroyed entries, clears the ledger,
and touches no still-pending request. -/
theorem failure_uniform (e : Engine) (hs : List Int)
    (hstate : e.state = .Downloading) :
    (∀ s ∈ e.sentRequests, s.queryObjectDestroyed = false →
        Output.onFailure s.terrainAtCoordinateQuery ∈ (coordinateHeights e false hs).2)
    ∧ (∀ c : Nat, Output.onFailure c ∈ (coordinateHeights e false hs).2 →
        ∃ s ∈ e.sentRequests, s.queryObjectDestroyed = false
          ∧ s.terrainAtCoordinateQuery = c)
    ∧ (∀ (c : Nat) (sl : List Int),
        Output.onResult c sl ∉ (coordinateHeights e false hs).2)
    ∧ (coordinateHeights e false hs).2
        = deliverFailure e.sentRequests
          ++ (sendNextBatch
              { e with sentRequests := [], state := .Idle, deadline := none }).2
    ∧ (e.requestQueue = [] → (coordinateHeights e false hs).1.sentRequests = []) := by
  have hfail : coordinateHeights e false hs = batchFailed e := by
    unfold coordinateHeights
    rw [if_neg (by simp [hstate]), if_pos (Or.inl rfl)]
  rw [hfail]
  unfold batchFailed
  refine ⟨?_, ?_, ?_, rfl, ?_⟩
  · intro s hsmem hnd
    exact List.mem_append_left _
      ((mem_deliverFailure_iff _ _).mpr ⟨s, hsmem, hnd, rfl⟩)
  · intro c hmem
    rcases List.mem_append.mp hmem with h | h
    · rw [mem_deliverFailure_iff] at h
      obtain ⟨s, hsmem, hnd, heq⟩ := h
      cases heq
      exact ⟨s, hsmem, hnd, rfl⟩
    · have h2 := sendNextBatch_outputs _ _ h
      cases h2
  · intro c sl hmem
    rcases List.mem_append.mp hmem with h | h
    · rw [mem_deliverFailure_iff] at h
      obtain ⟨s, _, _, heq⟩ := h
      cases heq
    · have h2 := sendNextBatch_outputs _ _ h
      cases h2
  · intro hqe
    have hst : ({ e with sentRequests := [], state := .Idle, deadline := none } : Engine).state ≠ .Downloading := by simp
    rw [sendNextBatch_idle _ hst (by simpa using hqe)]

/-- C6: a success whose height count violates invariant I1 is handled as a
failure for every non-destroyed ledger entry — no success slice is
delivered — and the demultiplexer can never read past the end of the
response: every delivered slice fits inside the heights it was given. -/
theorem length_mismatch_safe (e : Engine) (hs : List Int)
    (hstate : e.state = .Downloading)
    (hmis : hs.length ≠ cCoordSum e.sentRequests) :
    (∀ s ∈ e.sentRequests, s.queryObjectDestroyed = false →
        Output.onFailure s.terrainAtCoordinateQuery ∈ (coordinateHeights e true hs).2)
    ∧ (∀ (c : Nat) (sl : List Int),
        Output.onResult c sl ∉ (coordinateHeights e true hs).2)
    ∧ (∀ (rs : List SentRequestInfo) (ys : List Int) (c : Nat) (sl : List Int),
        Output.onResult c sl ∈ deliver rs ys → sl.length ≤ ys.length) := by
  have hfail : coordinateHeights e true hs = batchFailed e := by
    unfold coordinateHeights
    rw [if_neg (by simp [hstate]), if_pos (Or.inr hmis)]
  rw [hfail]
  unfold batchFailed
  refine ⟨?_, ?_, ?_⟩
  · intro s hsmem hnd
    exact List.mem_append_left _
      ((mem_deliverFailure_iff _ _).mpr ⟨s, hsmem, hnd, rfl⟩)
  · intro c sl hmem
    rcases List.mem_append.mp hmem with h | h
    · rw [mem_deliverFailure_iff] at h
      obtain ⟨s, _, _, heq⟩ := h
      cases heq
    · have h2 := sendNextBatch_outputs _ _ h
      cases h2
  · intro rs ys c sl hmem
    obtain ⟨s, _, sl', _, heq, hle⟩ := mem_deliver_elim rs ys _ hmem
    cases heq
    exact hle

/-- C7: an empty point list is never rejected: it is enqueued like any
other request, contributes no point to the flattened outbound list and
nothing to the expected height count, and its zero-length slice consumes
no heights, so every other entry's slice is exactly what it would have
been without it. -/
theorem empty_request_accepted :
    (∀ (e : Engine) (now c : Nat),
        (addQuery e now c []).1.requestQueue = e.requestQueue ++ [⟨c, []⟩])
    ∧ (∀ (l1 l2 : List QueuedRequestInfo) (c : Nat),
        flattenPoints (l1 ++ ⟨c, []⟩ :: l2) = flattenPoints (l1 ++ l2))
    ∧ (∀ (l1 l2 : List QueuedRequestInfo) (c : Nat),
        cCoordSum (mkLedger (l1 ++ ⟨c, []⟩ :: l2)) = cCoordSum (mkLedger (l1 ++ l2)))
    ∧ (∀ (l1 l2 : List SentRequestInfo) (c : Nat) (hs : List Int),
        deliver (l1 ++ ⟨c, false, 0⟩ :: l2) hs
          = deliver l1 hs
            ++ Output.onResult c [] :: deliver l2 (hs.drop (cCoordSum l1)))
    ∧ (∀ (l1 l2 : List SentRequestInfo) (c : Nat) (hs : List Int),
        deliver (l1 ++ ⟨c, true, 0⟩ :: l2) hs = deliver (l1 ++ l2) hs) := by
  refine ⟨?_, ?_, ?_, ?_, ?_⟩
  · intro e now c
    exact addQuery_requestQueue e now c []
  · intro l1 l2 c
    simp [flattenPoints]
  · intro l1 l2 c
    simp [mkLedger, cCoordSum_eq_sum, Function.comp]
  · intro l1 l2 c hs
    rw [deliver_append]
    simp [deliver]
  · intro l1 l2 c hs
    rw [deliver_append, deliver_append]
    simp [deliver]

/-- C8: while a flush is scheduled, a further enqueue leaves the armed
timer untouched (deadline unchanged — it was fixed at
`first-enqueue-time + _batchTimeout` on leaving `Idle`) and merely
appends to the queue, and the eventual timer fire dispatches the entire
accumulated queue, the late entry included, in one Transport call. -/
theorem scheduled_enqueue_timer_untouched (e : Engine) (now c : Nat) (pts : List Nat)
    (hsched : e.state = .Scheduled) :
    (addQuery e now c pts).1.state = .Scheduled
    ∧ (addQuery e now c pts).1.deadline = e.deadline
    ∧ (addQuery e now c pts).1.requestQueue = e.requestQueue ++ [⟨c, pts⟩]
    ∧ (∀ e0 : Engine, e0.state = .Idle →
        (addQuery e0 now c pts).1.deadline = some (now + batchTimeout))
    ∧ (sendNextBatch (addQuery e now c pts).1).2
        = [Output.transportCall (flattenPoints (e.requestQueue ++ [⟨c, pts⟩]))]
    ∧ (sendNextBatch (addQuery e now c pts).1).1.sentRequests
        = mkLedger (e.requestQueue ++ [⟨c, pts⟩]) := by
  have hst : (addQuery e now c pts).1.state = .Scheduled := by
    rw [addQuery_state, hsched]
    simp
  have hqu := addQuery_requestQueue e now c pts
  have hdisp := sendNextBatch_dispatch (addQuery e now c pts).1
    (by rw [hst]; simp) (by rw [hqu]; simp)
  refine ⟨hst, ?_, hqu, ?_, ?_, ?_⟩
  · rw [addQuery_deadline, hsched]
    simp
  · intro e0 h0
    rw [addQuery_deadline, h0]
    simp
  · rw [hdisp, hqu]
  · rw [hdisp, hqu]

/-- C9: a Transport completion with work already pending issues the next
Transport call in the same step — queue flattened, ledger rebuilt, no
timer armed, state straight back to `Downloading` — while a completion
with an empty queue returns the engine to `Idle` without any call. -/
theorem completion_immediate_next_dispatch (e : Engine) (success : Bool) (hs : List Int)
    (hstate : e.state = .Downloading) :
    (e.requestQueue ≠ [] →
        (coordinateHeights e success hs).1.state = .Downloading
        ∧ (coordinateHeights e success hs).1.deadline = none
        ∧ (coordinateHeights e success hs).1.sentRequests = mkLedger e.requestQueue
        ∧ (coordinateHeights e success hs).1.requestQueue = []
        ∧ Output.transportCall (flattenPoints e.requestQueue)
            ∈ (coordinateHeights e success hs).2)
    ∧ (e.requestQueue = [] →
        (coordinateHeights e success hs).1.state = .Idle
        ∧ ∀ pts, Output.transportCall pts ∉ (coordinateHeights e success hs).2) := by
  obtain ⟨he, fan, houts, hnocall, _⟩ := coordinateHeights_decomp e success hs hstate
  constructor
  · intro hne
    have hdisp := sendNextBatch_dispatch
      { e with sentRequests := [], state := .Idle, deadline := none }
      (by simp) (by simpa using hne)
    rw [he, hdisp]
    refine ⟨rfl, rfl, rfl, rfl, ?_⟩
    rw [houts, hdisp]
    exact List.mem_append_right _ (List.mem_singleton.mpr rfl)
  · intro hqe
    have hidle := sendNextBatch_idle
      { e with sentRequests := [], state := .Idle, deadline := none }
      (by simp) (by simpa using hqe)
    refine ⟨by rw [he, hidle], ?_⟩
    intro pts hmem
    rw [houts, hidle] at hmem
    simp only [List.append_nil] at hmem
    exact hnocall pts hmem

/-- C10: a poly-path request over `N ≥ 2` coordinates issues exactly one
two-endpoint path query per consecutive coordinate pair, each only after
the previous segment's response, and on overall success emits
`terrainData` with exactly `N - 1` per-segment results in path order. -/
theorem polyPath_sequential_segments (f : Nat → Nat → PathHeightInfo)
    (coords : List Nat) (hlen : 2 ≤ coords.length) :
    (polyRequestData coords).2
        ++ (polyDrive f (polyRequestData coords).1 (coords.length - 1)).2
      = (segsFrom coords 0 (coords.length - 1)).map
          (fun p => PolyOutput.pathQuery p.1 p.2)
        ++ [PolyOutput.terrainData true
              ((segsFrom coords 0 (coords.length - 1)).map fun p => f p.1 p.2)]
    ∧ (∀ (cs : List Nat) (k i : Nat), (segsFrom cs i k).length = k) := by
  constructor
  · obtain ⟨m, hm⟩ : ∃ m, coords.length - 1 = m + 1 := ⟨coords.length - 2, by omega⟩
    rw [hm]
    have hspec := polyDrive_spec f coords m 0 [] (by omega)
    rw [show (polyRequestData coords).1
        = (⟨0, coords, []⟩ : PolyPathQuery) from rfl, hspec]
    simp [segsFrom, polyRequestData]
  · intro cs k
    induction k with
    | zero => intro i; rfl
    | succ n ih =>
      intro i
      simp [segsFrom, ih]

/-! ## Witnesses: the hypotheses of the claim theorems are satisfiable -/

/-- Witness for C1, at the ledger of the two-consumer scenario of the
spec: the second consumer's slice is delivered. -/
theorem alignment_after_success_witness :
    Output.onResult
        (([⟨1, [10, 11]⟩, ⟨2, [12]⟩] : List QueuedRequestInfo)[1]).terrainAtCoordinateQuery
        ((([100, 101, 102] : List Int).drop
            (offsetAt [⟨1, false, 2⟩, ⟨2, false, 1⟩] 1)).take
          (([⟨1, [10, 11]⟩, ⟨2, [12]⟩] : List QueuedRequestInfo)[1]).coordinates.length)
      ∈ deliver [⟨1, false, 2⟩, ⟨2, false, 1⟩] [100, 101, 102] :=
  (alignment_after_success [⟨1, [10, 11]⟩, ⟨2, [12]⟩] [⟨1, false, 2⟩, ⟨2, false, 1⟩]
    [100, 101, 102] (by decide) (by decide) (by decide) 1 (by decide) (by decide)
    (by decide)).1

/-- Witness for C2, on a five-event valid trace with two dispatches. -/
theorem single_flight_witness :
    outstanding (run initEngine [Event.submit 0 1 [5], Event.timerFire,
        Event.transportResult true [7], Event.submit 9 2 [6], Event.timerFire]).1.state ≤ 1 :=
  (single_flight initEngine [Event.submit 0 1 [5], Event.timerFire,
    Event.transportResult true [7], Event.submit 9 2 [6], Event.timerFire]
    (by decide) rfl).2.1

/-- Witness for C3: with the first ledger entry destroyed, the surviving
second entry still receives its slice at the destroyed entry's offset. -/
theorem destroyed_consumer_silent_witness :
    Output.onResult
        (([⟨1, true, 2⟩, ⟨2, false, 1⟩] : List SentRequestInfo)[1]).terrainAtCoordinateQuery
        ((([5, 6, 7] : List Int).drop (offsetAt [⟨1, true, 2⟩, ⟨2, false, 1⟩] 1)).take
          (([⟨1, true, 2⟩, ⟨2, false, 1⟩] : List SentRequestInfo)[1]).cCoord)
      ∈ deliver [⟨1, true, 2⟩, ⟨2, false, 1⟩] [5, 6, 7] :=
  (destroyed_consumer_silent [⟨1, true, 2⟩, ⟨2, false, 1⟩] [5, 6, 7] 1 (by decide)).2.2
    1 (by decide) (by decide)

/-- Witness for C4: destroying the sole scheduled consumer and letting the
timer fire produces no output at all. -/
theorem destroyed_pending_dropped_witness :
    (run (queryObjectDestroyed (⟨[⟨7, [1, 2]⟩], [], .Scheduled, some 500⟩ : Engine) 7).1
        [Event.timerFire]).2 = [] :=
  (destroyed_pending_dropped ⟨[⟨7, [1, 2]⟩], [], .Scheduled, some 500⟩ 7).2.2
    [1, 2] rfl rfl

/-- Witness for C5: a failed dispatch with nothing pending leaves the
ledger empty. -/
theorem failure_uniform_witness :
    (coordinateHeights (⟨[], [⟨3, false, 1⟩], .Downloading, none⟩ : Engine)
        false [9]).1.sentRequests = [] :=
  (failure_uniform ⟨[], [⟨3, false, 1⟩], .Downloading, none⟩ [9] rfl).2.2.2.2 rfl

/-- Witness for C6: a two-height response against a one-height ledger
fails the surviving consumer. -/
theorem length_mismatch_safe_witness :
    Output.onFailure 3
      ∈ (coordinateHeights (⟨[], [⟨3, false, 1⟩], .Downloading, none⟩ : Engine)
          true [9, 9]).2 :=
  (length_mismatch_safe ⟨[], [⟨3, false, 1⟩], .Downloading, none⟩ [9, 9] rfl
    (by decide)).1 ⟨3, false, 1⟩ (by decide) rfl

/-- Witness for C8: an enqueue into a scheduled engine leaves the armed
deadline unchanged. -/
theorem scheduled_enqueue_timer_untouched_witness :
    (addQuery (⟨[⟨1, [4]⟩], [], .Scheduled, some 42⟩ : Engine) 10 2 [5, 6]).1.deadline
      = (⟨[⟨1, [4]⟩], [], .Scheduled, some 42⟩ : Engine).deadline :=
  (scheduled_enqueue_timer_untouched ⟨[⟨1, [4]⟩], [], .Scheduled, some 42⟩ 10 2 [5, 6]
    rfl).2.1

/-- Witness for C9: a completion with one pending request emits the next
Transport call in the same step. -/
theorem completion_immediate_next_dispatch_witness :
    Output.transportCall (flattenPoints [⟨2, [8]⟩])
      ∈ (coordinateHeights
          (⟨[⟨2, [8]⟩], [⟨1, false, 1⟩], .Downloading, none⟩ : Engine) true [7]).2 :=
  ((completion_immediate_next_dispatch ⟨[⟨2, [8]⟩], [⟨1, false, 1⟩], .Downloading, none⟩
    true [7] rfl).1 (by decide)).2.2.2.2

/-- Witness for C10: the full interleaving equation at a three-coordinate
path. -/
theorem polyPath_sequential_segments_witness :
    (polyRequestData [4, 5, 6]).2
        ++ (polyDrive (fun _ _ => PathHeightInfo.mk 0 0 []) (polyRequestData [4, 5, 6]).1
              ([4, 5, 6].length - 1)).2
      = (segsFrom [4, 5, 6] 0 ([4, 5, 6].length - 1)).map
          (fun p => PolyOutput.pathQuery p.1 p.2)
        ++ [PolyOutput.terrainData true
              ((segsFrom [4, 5, 6] 0 ([4, 5, 6].length - 1)).map
                fun p => (fun _ _ => PathHeightInfo.mk 0 0 []) p.1 p.2)] :=
  (polyPath_sequential_segments (fun _ _ => PathHeightInfo.mk 0 0 []) [4, 5, 6]
    (by decide)).1

end TerrainQuery
